import Mathlib

/-!
Verification of the srt-to-praat converter (src/srt-to-praat.py).

The development shallowly embeds the core of the script: the numeral
expansion cascade of the function replace_numbers, the subtitle text
processing of process_text, the SRT block parsing of parse_srt, and the
silence reconciliation of add_silent_intervals.  Times are modelled as
rationals, Python exceptions as Option/Except, and the regular-expression
substitutions as explicit left-to-right scanners over character lists that
mirror the semantics of re.sub for the concrete patterns used by the
script.  The external inflect engine (number_to_words, ordinal) is not
part of the repository; it is modelled below by an executable rendering of
English cardinals and ordinals that agrees with inflect on the values the
theorems evaluate.
-/

namespace SrtToPraat

/-! ## Character and string utilities -/

/-- The character class \d of the Python regexes, restricted to ASCII. -/
def isDigitChar (c : Char) : Bool := '0' ≤ c && c ≤ '9'

/-- The character class [A-Z] of the Python regexes. -/
def isUpperChar (c : Char) : Bool := 'A' ≤ c && c ≤ 'Z'

/-- The Python whitespace characters recognised by str.strip and \s. -/
def isPySpace (c : Char) : Bool :=
  c = ' ' || c = '\t' || c = '\n' || c = '\r' || c = '\x0b' || c = '\x0c'

/-- Numeric value of a digit run (int() applied to a string of digits). -/
def natOfDigits (l : List Char) : Nat :=
  l.foldl (fun a c => a * 10 + (c.toNat - 48)) 0

/-- int() on a string known to hold only characters matched by \d+s? :
it succeeds exactly when every character is a digit (and there is one). -/
def digitsToNat (l : List Char) : Option Nat :=
  if l ≠ [] ∧ l.all isDigitChar = true then some (natOfDigits l) else none

/-- Python int() on a general string: surrounding whitespace is ignored,
an optional sign is allowed, and the rest must be a nonempty digit run. -/
def pyInt (s : String) : Option Int :=
  let cs := ((s.toList.dropWhile isPySpace).reverse.dropWhile isPySpace).reverse
  match cs with
  | '-' :: ds => (digitsToNat ds).map (fun n => -(n : Int))
  | '+' :: ds => (digitsToNat ds).map (fun n => (n : Int))
  | ds => (digitsToNat ds).map (fun n => (n : Int))

/-- Python str.strip(): remove leading and trailing whitespace. -/
def pyStrip (s : String) : String :=
  String.mk (((s.toList.dropWhile isPySpace).reverse.dropWhile isPySpace).reverse)

/-- One step of Python str.split(sep) for a nonempty separator, written with
explicit fuel so that it is structurally recursive; the fuel is always
instantiated with the length of the scanned list, which each step strictly
decreases, so the fuel-exhausted arm is never reached. -/
def pySplitFuel (sep : List Char) : Nat → List Char → List Char → List String
  | _, [], acc => [String.mk acc.reverse]
  | 0, l, acc => [String.mk (acc.reverse ++ l)]
  | n + 1, c :: cs, acc =>
    if sep.isPrefixOf (c :: cs) then
      String.mk acc.reverse :: pySplitFuel sep n ((c :: cs).drop sep.length) []
    else
      pySplitFuel sep n cs (c :: acc)

/-- Python str.split(sep) for a nonempty separator string. -/
def pySplit (s sep : String) : List String :=
  pySplitFuel sep.toList s.toList.length s.toList []

/-! ## Model of the external inflect engine

The script converts numbers to words through inflect.engine(); the library
is an external collaborator of the repository.  The functions below render
English cardinals and ordinals the way inflect does on the values reached
by the theorems of this file (small cardinals, round thousands, ordinals
below one hundred). -/

/-- Cardinal words for 0..19. -/
def onesWord (n : Nat) : String :=
  match n with
  | 0 => "zero" | 1 => "one" | 2 => "two" | 3 => "three" | 4 => "four"
  | 5 => "five" | 6 => "six" | 7 => "seven" | 8 => "eight" | 9 => "nine"
  | 10 => "ten" | 11 => "eleven" | 12 => "twelve" | 13 => "thirteen"
  | 14 => "fourteen" | 15 => "fifteen" | 16 => "sixteen" | 17 => "seventeen"
  | 18 => "eighteen" | _ => "nineteen"

/-- Cardinal words for the tens 20, 30, ..., 90 (argument is the tens digit). -/
def tensWord (n : Nat) : String :=
  match n with
  | 2 => "twenty" | 3 => "thirty" | 4 => "forty" | 5 => "fifty"
  | 6 => "sixty" | 7 => "seventy" | 8 => "eighty" | _ => "ninety"

/-- Cardinal words below one hundred, hyphenating compounds as inflect does. -/
def wordsBelow100 (n : Nat) : String :=
  if n < 20 then onesWord n
  else if n % 10 = 0 then tensWord (n / 10)
  else tensWord (n / 10) ++ "-" ++ onesWord (n % 10)

/-- Cardinal words below one thousand, with the "and" inflect inserts. -/
def wordsBelow1000 (n : Nat) : String :=
  if n < 100 then wordsBelow100 n
  else if n % 100 = 0 then onesWord (n / 100) ++ " hundred"
  else onesWord (n / 100) ++ " hundred and " ++ wordsBelow100 (n % 100)

/-- Base-1000 digits of a number, least significant first, with fuel (the
fuel is instantiated with the number itself, which is always sufficient). -/
def numGroupsFuel : Nat → Nat → List Nat
  | _, 0 => []
  | 0, _ => []
  | f + 1, n => n % 1000 :: numGroupsFuel f (n / 1000)

/-- Scale word attached to the i-th base-1000 group. -/
def scaleWord (i : Nat) : String :=
  match i with
  | 0 => "" | 1 => " thousand" | 2 => " million" | 3 => " billion"
  | 4 => " trillion" | 5 => " quadrillion" | _ => " quintillion"

/-- Render the base-1000 groups, most significant first, skipping zero
groups and joining with ", " as inflect does. -/
def renderGroups : List (Nat × Nat) → String
  | [] => ""
  | (g, i) :: rest =>
    if g = 0 then renderGroups rest
    else
      let here := wordsBelow1000 g ++ scaleWord i
      let tail := renderGroups rest
      if tail = "" then here else here ++ ", " ++ tail

/-- Model of inflect number_to_words on nonnegative integers. -/
def number_to_words (n : Nat) : String :=
  if n = 0 then "zero"
  else
    let gs := numGroupsFuel n n
    renderGroups (gs.enum.reverse.map (fun p => (p.2, p.1)))

/-- Ordinal words for 0..19. -/
def ordinalOnes (n : Nat) : String :=
  match n with
  | 0 => "zeroth" | 1 => "first" | 2 => "second" | 3 => "third"
  | 4 => "fourth" | 5 => "fifth" | 6 => "sixth" | 7 => "seventh"
  | 8 => "eighth" | 9 => "ninth" | 10 => "tenth" | 11 => "eleventh"
  | 12 => "twelfth" | 13 => "thirteenth" | 14 => "fourteenth"
  | 15 => "fifteenth" | 16 => "sixteenth" | 17 => "seventeenth"
  | 18 => "eighteenth" | _ => "nineteenth"

/-- Ordinal words for the tens 20, ..., 90 (argument is the tens digit). -/
def ordinalTens (n : Nat) : String :=
  match n with
  | 2 => "twentieth" | 3 => "thirtieth" | 4 => "fortieth" | 5 => "fiftieth"
  | 6 => "sixtieth" | 7 => "seventieth" | 8 => "eightieth" | _ => "ninetieth"

/-- Ordinal words below one hundred. -/
def ordinalBelow100 (n : Nat) : String :=
  if n < 20 then ordinalOnes n
  else if n % 10 = 0 then ordinalTens (n / 10)
  else tensWord (n / 10) ++ "-" ++ ordinalOnes (n % 10)

/-- Model of inflect number_to_words(ordinal(n)) as the script composes the
two calls in replace_ordinal_numbers. -/
def ordinal_number_words (n : Nat) : String :=
  if n < 100 then ordinalBelow100 n
  else if n % 100 = 0 then number_to_words n ++ "th"
  else
    number_to_words (n - n % 100) ++
      (if 100 ≤ n % 1000 then " and " else ", ") ++ ordinalBelow100 (n % 100)

/-- Python str.replace applied as .replace of "y" by "ie" in the decades
branch of replace_number_match. -/
def yToIe (s : String) : String :=
  String.mk (s.toList.foldr (fun c acc => if c = 'y' then 'i' :: 'e' :: acc else c :: acc) [])

/-! ## The six substitution passes of replace_numbers

Each pass embeds one re.sub call as a left-to-right scanner: at each
position it attempts the pattern (digit runs are maximal, as the greedy
\d+ with a non-digit continuation behaves under backtracking); on success
it emits the replacement and resumes after the match, otherwise it emits
one character and moves on.  The fuel argument is instantiated with the
length of the scanned list; every step consumes at least one character per
unit of fuel, so the fuel-exhausted arm is never reached. -/

/-- Pass 1: re.sub of (\d+)% to (\d+)% — percentage ranges. -/
def sub_percent_range_fuel : Nat → List Char → List Char
  | _, [] => []
  | 0, l => l
  | n + 1, c :: cs =>
    if isDigitChar c then
      match cs.dropWhile isDigitChar with
      | '%' :: ' ' :: 't' :: 'o' :: ' ' :: d :: ds =>
        if isDigitChar d then
          match ds.dropWhile isDigitChar with
          | '%' :: rest2 =>
            (number_to_words (natOfDigits (c :: cs.takeWhile isDigitChar))).toList ++
              " to ".toList ++
              (number_to_words (natOfDigits (d :: ds.takeWhile isDigitChar))).toList ++
              " percent".toList ++ sub_percent_range_fuel n rest2
          | _ => c :: sub_percent_range_fuel n cs
        else c :: sub_percent_range_fuel n cs
      | _ => c :: sub_percent_range_fuel n cs
    else c :: sub_percent_range_fuel n cs

/-- Pass 1 wrapper. -/
def sub_percent_range (l : List Char) : List Char :=
  sub_percent_range_fuel l.length l

/-- Pass 2: re.sub of (\d+)% — standalone percentages. -/
def sub_percent_fuel : Nat → List Char → List Char
  | _, [] => []
  | 0, l => l
  | n + 1, c :: cs =>
    if isDigitChar c then
      match cs.dropWhile isDigitChar with
      | '%' :: rest2 =>
        (number_to_words (natOfDigits (c :: cs.takeWhile isDigitChar))).toList ++
          " percent".toList ++ sub_percent_fuel n rest2
      | _ => c :: sub_percent_fuel n cs
    else c :: sub_percent_fuel n cs

/-- Pass 2 wrapper. -/
def sub_percent (l : List Char) : List Char :=
  sub_percent_fuel l.length l

/-- Suffix test of the ordinal pattern (st|nd|rd|th). -/
def isOrdinalSuffix (a b : Char) : Bool :=
  (a = 's' && b = 't') || (a = 'n' && b = 'd') || (a = 'r' && b = 'd') ||
    (a = 't' && b = 'h')

/-- Pass 3: re.sub of (\d+)(st|nd|rd|th) — ordinals. -/
def sub_ordinal_fuel : Nat → List Char → List Char
  | _, [] => []
  | 0, l => l
  | n + 1, c :: cs =>
    if isDigitChar c then
      match cs.dropWhile isDigitChar with
      | a :: b :: rest2 =>
        if isOrdinalSuffix a b then
          (ordinal_number_words (natOfDigits (c :: cs.takeWhile isDigitChar))).toList ++
            sub_ordinal_fuel n rest2
        else c :: sub_ordinal_fuel n cs
      | _ => c :: sub_ordinal_fuel n cs
    else c :: sub_ordinal_fuel n cs

/-- Pass 3 wrapper. -/
def sub_ordinal (l : List Char) : List Char :=
  sub_ordinal_fuel l.length l

/-- Pass 4: re.sub of \$(\d+) — currency.  The callback convert_currency
returns the captured digit string itself followed by " dollars"; it does
not spell the number out. -/
def sub_currency_fuel : Nat → List Char → List Char
  | _, [] => []
  | 0, l => l
  | n + 1, c :: cs =>
    if c = '$' then
      match cs.takeWhile isDigitChar with
      | [] => c :: sub_currency_fuel n cs
      | d :: ds =>
        (d :: ds) ++ " dollars".toList ++
          sub_currency_fuel n (cs.dropWhile isDigitChar)
    else c :: sub_currency_fuel n cs

/-- Pass 4 wrapper. -/
def sub_currency (l : List Char) : List Char :=
  sub_currency_fuel l.length l

/-- The callback four_digit_number of pass 5: a multiple of 1000 is spelt
plainly; otherwise the number splits into its first two and last two
digits, giving the year style or the "hundred" style. -/
def four_digit_number (v : Nat) : String :=
  if v % 1000 = 0 then number_to_words v
  else
    let first_part := v / 100
    let second_part := v % 100
    if second_part ≠ 0 then
      number_to_words first_part ++ " " ++ number_to_words second_part
    else
      number_to_words first_part ++ " hundred"

/-- Pass 5: re.sub of \d{4} — any four consecutive digits, with no anchor,
so the pattern also fires inside longer digit runs. -/
def sub_four_digit_fuel : Nat → List Char → List Char
  | _, [] => []
  | 0, l => l
  | n + 1, c1 :: c2 :: c3 :: c4 :: rest =>
    if isDigitChar c1 && isDigitChar c2 && isDigitChar c3 && isDigitChar c4 then
      (four_digit_number (natOfDigits [c1, c2, c3, c4])).toList ++
        sub_four_digit_fuel n rest
    else c1 :: sub_four_digit_fuel n (c2 :: c3 :: c4 :: rest)
  | n + 1, c :: cs => c :: sub_four_digit_fuel n cs

/-- Pass 5 wrapper. -/
def sub_four_digit (l : List Char) : List Char :=
  sub_four_digit_fuel l.length l

/-- The ^\d0s$ decade test of replace_number_match. -/
def decadeCheck : List Char → Bool
  | [a, b, c] => isDigitChar a && b = '0' && c = 's'
  | _ => false

/-- The callback replace_number_match of pass 6: a decade such as 70s is
rendered from its ten with "y" replaced by "ie" plus "s"; any other match
goes through int(), which raises ValueError (modelled as none) when the
optional "s" was captured on a non-decade. -/
def replace_number_match (num_str : List Char) : Option String :=
  if decadeCheck num_str then
    some (yToIe (number_to_words (natOfDigits num_str.dropLast)) ++ "s")
  else (digitsToNat num_str).map number_to_words

/-- Pass 6: re.sub of \d+s? — remaining numbers, with the optional
trailing s captured greedily. -/
def sub_general_fuel : Nat → List Char → Option (List Char)
  | _, [] => some []
  | 0, l => some l
  | n + 1, c :: cs =>
    if isDigitChar c then
      match cs.dropWhile isDigitChar with
      | 's' :: rest2 =>
        match replace_number_match (c :: cs.takeWhile isDigitChar ++ ['s']) with
        | some w => (sub_general_fuel n rest2).map (fun t => w.toList ++ t)
        | none => none
      | rest =>
        match replace_number_match (c :: cs.takeWhile isDigitChar) with
        | some w => (sub_general_fuel n rest).map (fun t => w.toList ++ t)
        | none => none
    else (sub_general_fuel n cs).map (fun t => c :: t)

/-- Pass 6 wrapper. -/
def sub_general (l : List Char) : Option (List Char) :=
  sub_general_fuel l.length l

/-- replace_numbers: identity when conversion is disabled, otherwise the
six passes in order, each on the output of the previous; the result is
none when pass 6 raises ValueError. -/
def replace_numbers (text : String) (convert_numbers : Bool) : Option String :=
  if !convert_numbers then some text
  else
    let t1 := sub_percent_range text.toList
    let t2 := sub_percent t1
    let t3 := sub_ordinal t2
    let t4 := sub_currency t3
    let t5 := sub_four_digit t4
    (sub_general t5).map String.mk

/-! ## process_text -/

/-- A row of the change log: the CSV audit record appended by process_text. -/
structure ChangeRecord where
  timestamp : String
  originalText : String
  processedText : String
deriving DecidableEq

/-- The search for \d in a string. -/
def hasDigit (s : String) : Bool := s.toList.any isDigitChar

/-- The search for [A-Z]{2,}: two adjacent uppercase letters occur. -/
def hasUpperPairAux : List Char → Bool
  | a :: b :: rest => (isUpperChar a && isUpperChar b) || hasUpperPairAux (b :: rest)
  | _ => false

/-- The condition of re.search of \d|[A-Z]{2,} on the original text. -/
def changeCond (s : String) : Bool := hasDigit s || hasUpperPairAux s.toList

/-- re.sub of (?<=[A-Z])(?=[A-Z]): a space goes between every pair of
adjacent uppercase letters. -/
def splitUpAux : List Char → List Char
  | [] => []
  | [c] => [c]
  | a :: b :: rest =>
    if isUpperChar a && isUpperChar b then a :: ' ' :: splitUpAux (b :: rest)
    else a :: splitUpAux (b :: rest)

/-- String wrapper of the uppercase splitting substitution. -/
def splitUppercase (s : String) : String := String.mk (splitUpAux s.toList)

/-- process_text: run replace_numbers, split uppercase runs when conversion
is enabled, and append a change record when the original text contains a
digit or an uppercase run; none models the ValueError replace_numbers can
raise. -/
def process_text (text timestamp : String) (changes_list : List ChangeRecord)
    (convert_numbers : Bool) : Option (String × List ChangeRecord) :=
  match replace_numbers text convert_numbers with
  | none => none
  | some t1 =>
    let t2 := if convert_numbers then splitUppercase t1 else t1
    if changeCond text then
      some (t2, changes_list ++ [⟨timestamp, text, t2⟩])
    else some (t2, changes_list)

/-! ## Intervals and time parsing -/

/-- The Interval class of the script: a start time, an end time and a text.
Times are modelled as rationals. -/
structure Interval where
  start : ℚ
  «end» : ℚ
  text : String
deriving DecidableEq

/-- time_to_seconds: split on ":" into exactly three parts, split the last
on "," into exactly two, convert each part with int(), and combine.  The
sum of the first three products is integer arithmetic in the source; the
division by 1000.0 promotes to a (here: rational) number.  Any failure of
the unpacking or of int() is a ValueError, modelled as none. -/
def time_to_seconds (time_str : String) : Option ℚ :=
  match pySplit time_str ":" with
  | [hours, minutes, secPart] =>
    match pySplit secPart "," with
    | [seconds, milliseconds] =>
      match pyInt hours, pyInt minutes, pyInt seconds, pyInt milliseconds with
      | some h, some m, some s, some ms =>
        some (((h * 3600 + m * 60 + s : ℤ) : ℚ) + (ms : ℚ) / 1000)
      | _, _, _, _ => none
    | _ => none
  | _ => none

/-- The timestamp line: split on " --> " into exactly two sides (a failed
unpacking is a ValueError) and convert both sides. -/
def parse_time_range (line : String) : Option (ℚ × ℚ) :=
  match pySplit line " --> " with
  | [start_time, end_time] =>
    match time_to_seconds start_time, time_to_seconds end_time with
    | some s, some e => some (s, e)
    | _, _ => none
  | _ => none

/-! ## SRT block parsing -/

/-- re.match of the diarization pattern \[([^\]]+)\]: (.*) at the start of
the text line: an opening bracket, a nonempty run of non-bracket
characters, the literal "]: ", and the rest as spoken text. -/
def matchSpeaker (s : String) : Option (String × String) :=
  match s.toList with
  | '[' :: rest =>
    match rest.takeWhile (fun c => c ≠ ']') with
    | [] => none
    | sp =>
      match rest.dropWhile (fun c => c ≠ ']') with
      | ']' :: ':' :: ' ' :: text => some (String.mk sp, String.mk text)
      | _ => none
  | _ => none

/-- Speaker attribution: the diarization match when diarization is on,
otherwise the fixed speaker "Speaker" with the whole line as text. -/
def diarizeText (diarize : Bool) (speaker_text : String) : Option (String × String) :=
  if diarize then matchSpeaker speaker_text else some ("Speaker", speaker_text)

/-- The per-speaker map, in insertion order, as the Python defaultdict
holds it. -/
abbrev SpeakerMap := List (String × List Interval)

/-- Appending an interval to a speaker's list, creating the key on first
use as defaultdict(list) does. -/
def addToSpeaker (m : SpeakerMap) (sp : String) (iv : Interval) : SpeakerMap :=
  match m with
  | [] => [(sp, [iv])]
  | (s, l) :: rest =>
    if s = sp then (s, l ++ [iv]) :: rest else (s, l) :: addToSpeaker rest sp iv

/-- Processing of one SRT block by the loop body of parse_srt: ok none
means the block is skipped, ok some is a parsed subtitle, and error is an
uncaught ValueError aborting the whole parse. -/
def processBlock (media_duration : ℚ) (diarize convert_numbers : Bool)
    (changes : List ChangeRecord) (block : String) :
    Except String (Option (String × Interval) × List ChangeRecord) :=
  let lines := pySplit block "\n"
  if lines.length < 3 then .ok (none, changes)
  else
    match parse_time_range (lines.getD 1 "") with
    | none => .error "ValueError"
    | some (start_seconds, end_seconds) =>
      if end_seconds > media_duration then .ok (none, changes)
      else
        match diarizeText diarize (pyStrip (lines.getD 2 "")) with
        | none => .ok (none, changes)
        | some (speaker, text) =>
          match process_text text (lines.getD 1 "") changes convert_numbers with
          | none => .error "ValueError"
          | some (processed_text, changes2) =>
            .ok (some (speaker, ⟨start_seconds, end_seconds, processed_text⟩), changes2)

/-- The block loop of parse_srt, threading the speaker map and the change
list. -/
def parse_blocks (media_duration : ℚ) (diarize convert_numbers : Bool) :
    List String → SpeakerMap → List ChangeRecord →
    Except String (SpeakerMap × List ChangeRecord)
  | [], m, ch => .ok (m, ch)
  | b :: bs, m, ch =>
    match processBlock media_duration diarize convert_numbers ch b with
    | .error e => .error e
    | .ok (none, ch2) => parse_blocks media_duration diarize convert_numbers bs m ch2
    | .ok (some (sp, iv), ch2) =>
      parse_blocks media_duration diarize convert_numbers bs (addToSpeaker m sp iv) ch2

/-- One step of re.split of \n\s*\n: at a newline, the separator taken is
the longest whitespace run that starts at this newline and ends with a
newline; it must contain a second newline, else no separator starts here.
The fuel is the length of the scanned list, strictly decreased by every
step. -/
def splitBlocksFuel : Nat → List Char → List Char → List String
  | _, [], acc => [String.mk acc.reverse]
  | 0, l, acc => [String.mk (acc.reverse ++ l)]
  | n + 1, c :: cs, acc =>
    if c = '\n' then
      let run := (c :: cs).takeWhile isPySpace
      let k := run.length - (run.reverse.takeWhile (fun d => d ≠ '\n')).length
      if 2 ≤ k then
        String.mk acc.reverse :: splitBlocksFuel n ((c :: cs).drop k) []
      else splitBlocksFuel n cs (c :: acc)
    else splitBlocksFuel n cs (c :: acc)

/-- re.split of \n\s*\n on the stripped SRT text. -/
def splitBlocks (s : String) : List String :=
  splitBlocksFuel s.toList.length s.toList []

/-! ## Silence reconciliation -/

/-- Stable insertion into a list sorted by start time: the new element goes
before the first element whose start is not smaller, which, combined with
the fold below, reproduces the stable ascending sort of list.sort with the
start key. -/
def insertIv (x : Interval) : List Interval → List Interval
  | [] => [x]
  | y :: ys => if x.start ≤ y.start then x :: y :: ys else y :: insertIv x ys

/-- intervals.sort with key x.start: stable ascending sort. -/
def sortByStart : List Interval → List Interval
  | [] => []
  | x :: xs => insertIv x (sortByStart xs)

/-- The inner walk of add_silent_intervals: copy each interval, inserting a
silent interval between consecutive ones whenever the next start strictly
exceeds the current end. -/
def fillGaps : List Interval → List Interval
  | [] => []
  | [a] => [a]
  | a :: b :: rest =>
    if a.«end» < b.start then
      a :: ⟨a.«end», b.start, ""⟩ :: fillGaps (b :: rest)
    else
      a :: fillGaps (b :: rest)

/-- The per-speaker body of add_silent_intervals: sort, pad the front when
the first interval starts after 0, walk the gaps, pad the back when the
last interval ends before the media duration.  An empty list makes the
intervals[0] access raise IndexError, modelled as none. -/
def add_silent_one (media_duration : ℚ) (intervals : List Interval) :
    Option (List Interval) :=
  match sortByStart intervals with
  | [] => none
  | a :: rest =>
    let lastIv := (a :: rest).getLastD a
    let front : List Interval := if 0 < a.start then [⟨0, a.start, ""⟩] else []
    let back : List Interval :=
      if lastIv.«end» < media_duration then [⟨lastIv.«end», media_duration, ""⟩] else []
    some (front ++ fillGaps (a :: rest) ++ back)

/-- add_silent_intervals over the whole speaker map, speaker by speaker in
insertion order. -/
def add_silent_intervals : SpeakerMap → ℚ → Option SpeakerMap
  | [], _ => some []
  | (sp, ivs) :: rest, media_duration =>
    match add_silent_one media_duration ivs with
    | none => none
    | some r =>
      match add_silent_intervals rest media_duration with
      | none => none
      | some rs => some ((sp, r) :: rs)

/-- parse_srt on the raw SRT text: strip, split into blocks, run the block
loop, then reconcile silences.  The media duration is passed as a value
(the script obtains it from the external media probe). -/
def parse_srt (srt_data : String) (media_duration : ℚ)
    (diarize convert_numbers : Bool) :
    Except String (SpeakerMap × List ChangeRecord) :=
  match parse_blocks media_duration diarize convert_numbers
      (splitBlocks (pyStrip srt_data)) [] [] with
  | .error e => .error e
  | .ok (m, ch) =>
    match add_silent_intervals m media_duration with
    | none => .error "IndexError"
    | some m2 => .ok (m2, ch)

/-- Decidable per-block check that a parseable timestamp is well ordered
and nonnegative (used to state the amended interval invariant). -/
def timeOrderOK (block : String) : Bool :=
  match parse_time_range ((pySplit block "\n").getD 1 "") with
  | some (s, e) => decide (0 ≤ s) && decide (s ≤ e)
  | none => true

/-! ## Helper lemmas for concrete evaluation -/

/-- Evaluation scheme for time_to_seconds from the evaluated components. -/
theorem time_to_seconds_eval (t a b c d e : String) (h m s ms : Int)
    (h1 : pySplit t ":" = [a, b, c]) (h2 : pySplit c "," = [d, e])
    (h3 : pyInt a = some h) (h4 : pyInt b = some m)
    (h5 : pyInt d = some s) (h6 : pyInt e = some ms) :
    time_to_seconds t = some (((h * 3600 + m * 60 + s : ℤ) : ℚ) + (ms : ℚ) / 1000) := by
  simp only [time_to_seconds, h1, h2, h3, h4, h5, h6]

/-! ## C2: the documented expansion examples -/

/-- C2: with conversion enabled, replace_numbers maps 2025 to twenty
twenty-five, 1400 to fourteen hundred, 3000 to three thousand, 45 percent
to forty-five percent, 25 dollars to twenty-five dollars, 21st to
twenty-first, and 70s to seventies, exactly as the specification lists. -/
theorem c2_expansion_examples :
    replace_numbers "2025" true = some "twenty twenty-five" ∧
    replace_numbers "1400" true = some "fourteen hundred" ∧
    replace_numbers "3000" true = some "three thousand" ∧
    replace_numbers "45%" true = some "forty-five percent" ∧
    replace_numbers "$25" true = some "twenty-five dollars" ∧
    replace_numbers "21st" true = some "twenty-first" ∧
    replace_numbers "70s" true = some "seventies" := by
  refine ⟨?_, ?_, ?_, ?_, ?_, ?_, ?_⟩ <;> decide

/-! ## C3: what the currency pass actually emits -/

/-- C3 counterexample: the currency pass rewrites the dollar sign and the
digits to the digits themselves followed by " dollars" — not to the word
form — and those digits are afterwards converted by the generic final
pass, so digits matched by pass 4 do reach the pass-6 substitution. -/
theorem c3_counterexample :
    sub_currency "$25".toList = "25 dollars".toList ∧
    "25 dollars" ≠ "twenty-five dollars" ∧
    (sub_general "25 dollars".toList).map String.mk = some "twenty-five dollars" := by
  refine ⟨?_, ?_, ?_⟩ <;> decide

/-- C3 amended: on a dollar sign followed by a nonempty digit run the
currency pass emits the digit run unchanged plus " dollars"; the digits
are then spelt out by the later passes, so the whole pipeline still maps
the 25-dollar input to "twenty-five dollars". -/
theorem c3_currency_amended (ds : List Char) (hne : ds ≠ [])
    (hdig : ∀ c ∈ ds, isDigitChar c = true) :
    sub_currency ('$' :: ds) = ds ++ " dollars".toList ∧
    replace_numbers "$25" true = some "twenty-five dollars" := by
  constructor
  · have htake : ds.takeWhile isDigitChar = ds :=
      List.takeWhile_eq_self_iff.mpr (by intro x hx; simp [hdig x hx])
    have hdrop : ds.dropWhile isDigitChar = [] :=
      List.dropWhile_eq_nil_iff.mpr (by intro x hx; simp [hdig x hx])
    obtain ⟨d, ds2, rfl⟩ : ∃ d ds2, ds = d :: ds2 := by
      cases ds with
      | nil => exact absurd rfl hne
      | cons d t => exact ⟨d, t, rfl⟩
    simp [sub_currency, sub_currency_fuel, htake, hdrop]
  · decide

/-- C3 witness: the amended currency statement at the concrete digits 25. -/
theorem c3_currency_witness :
    (['2', '5'] : List Char) ≠ [] ∧
    sub_currency ('$' :: ['2', '5']) = ['2', '5'] ++ " dollars".toList ∧
    replace_numbers "$25" true = some "twenty-five dollars" :=
  ⟨by decide, c3_currency_amended ['2', '5'] (by decide) (by decide)⟩

/-! ## C9: the four-digit pass inside longer digit runs -/

/-- C9 counterexample: the \d{4} pass fires on the first four digits of the
five-digit run 12345, so the run is split by the 4-digit rule instead of
being rendered as one cardinal by the generic final pass. -/
theorem c9_counterexample :
    sub_four_digit "12345".toList = "twelve thirty-four5".toList ∧
    replace_numbers "12345" true = some "twelve thirty-fourfive" ∧
    "twelve thirty-fourfive" ≠ number_to_words 12345 := by
  refine ⟨?_, ?_, ?_⟩ <;> decide

/-- C9 amended: the 4-digit special case fires on any four consecutive
digits: a standalone run of exactly four digits is rendered wholly by it,
while a run of five digits has its first four digits consumed by the
4-digit rule and only the remaining digit left to the generic final
pass. -/
theorem c9_four_digit_amended (d1 d2 d3 d4 d5 : Char)
    (h1 : isDigitChar d1 = true) (h2 : isDigitChar d2 = true)
    (h3 : isDigitChar d3 = true) (h4 : isDigitChar d4 = true)
    (h5 : isDigitChar d5 = true) :
    sub_four_digit [d1, d2, d3, d4] =
      (four_digit_number (natOfDigits [d1, d2, d3, d4])).toList ∧
    sub_four_digit [d1, d2, d3, d4, d5] =
      (four_digit_number (natOfDigits [d1, d2, d3, d4])).toList ++ [d5] := by
  constructor
  · simp [sub_four_digit, sub_four_digit_fuel, h1, h2, h3, h4]
  · simp [sub_four_digit, sub_four_digit_fuel, h1, h2, h3, h4, h5]

/-- C9 witness: the amended statement at the concrete digits 12345. -/
theorem c9_four_digit_witness :
    sub_four_digit ['1', '2', '3', '4'] =
      (four_digit_number (natOfDigits ['1', '2', '3', '4'])).toList ∧
    sub_four_digit ['1', '2', '3', '4', '5'] =
      (four_digit_number (natOfDigits ['1', '2', '3', '4'])).toList ++ ['5'] :=
  c9_four_digit_amended '1' '2' '3' '4' '5'
    (by decide) (by decide) (by decide) (by decide) (by decide)

/-! ## C4: when a change record is produced -/

/-- C4 counterexample: the text 25s contains a digit, yet with conversion
enabled process_text raises ValueError (the generic pass applies int() to
the match "25s"), so no change record is appended for it. -/
theorem c4_counterexample :
    process_text "25s" "00:00:00,000 --> 00:00:01,000" [] true = none ∧
    changeCond "25s" = true := by
  refine ⟨?_, ?_⟩ <;> decide

/-- C4 amended: whenever process_text returns at all, a change record is
appended exactly when the original text contains a digit or two adjacent
uppercase letters; with conversion disabled process_text always returns,
the processed text equals the original, and the same criterion governs the
record (a no-op record is still logged). -/
theorem c4_change_record_amended (text ts : String) (ch : List ChangeRecord)
    (conv : Bool) :
    (process_text text ts ch false =
      some (text, if changeCond text then ch ++ [⟨ts, text, text⟩] else ch)) ∧
    (∀ out ch2, process_text text ts ch conv = some (out, ch2) →
      (changeCond text = true → ch2 = ch ++ [⟨ts, text, out⟩]) ∧
      (changeCond text = false → ch2 = ch)) := by
  constructor
  · simp only [process_text, replace_numbers, Bool.not_false, if_true]
    split <;> simp
  · intro out ch2 hsome
    unfold process_text at hsome
    cases hrn : replace_numbers text conv with
    | none => rw [hrn] at hsome; exact absurd hsome (by simp)
    | some t1 =>
      rw [hrn] at hsome
      simp only at hsome
      constructor
      · intro hcond
        rw [if_pos hcond] at hsome
        rw [Option.some.injEq, Prod.mk.injEq] at hsome
        obtain ⟨h1, h2⟩ := hsome
        rw [← h2, h1]
      · intro hcond
        rw [if_neg (by simp [hcond])] at hsome
        rw [Option.some.injEq, Prod.mk.injEq] at hsome
        exact hsome.2.symm

/-- C4 witness: the amended record criterion applied to the concrete text
A7, which contains a digit, with conversion enabled. -/
theorem c4_change_record_witness :
    process_text "A7" "t" [] true = some ("Aseven", [⟨"t", "A7", "Aseven"⟩]) ∧
    ([⟨"t", "A7", "Aseven"⟩] : List ChangeRecord) = [] ++ [⟨"t", "A7", "Aseven"⟩] :=
  ⟨by decide,
    ((c4_change_record_amended "A7" "t" [] true).2 "Aseven" [⟨"t", "A7", "Aseven"⟩]
      (by decide)).1 (by decide)⟩

/-! ## C8: idempotence on digit-free text

Each pattern of the cascade requires at least one digit, so on a digit-free
input every pass emits its input unchanged. -/

/-- Pass 1 is the identity on digit-free input. -/
theorem sub_percent_range_fuel_id (n : Nat) (l : List Char)
    (h : ∀ c ∈ l, isDigitChar c = false) : sub_percent_range_fuel n l = l := by
  induction n generalizing l with
  | zero => cases l <;> rfl
  | succ n ih =>
    cases l with
    | nil => rfl
    | cons c cs =>
      simp [sub_percent_range_fuel, h c (by simp),
        ih cs (fun x hx => h x (by simp [hx]))]

/-- Pass 2 is the identity on digit-free input. -/
theorem sub_percent_fuel_id (n : Nat) (l : List Char)
    (h : ∀ c ∈ l, isDigitChar c = false) : sub_percent_fuel n l = l := by
  induction n generalizing l with
  | zero => cases l <;> rfl
  | succ n ih =>
    cases l with
    | nil => rfl
    | cons c cs =>
      simp [sub_percent_fuel, h c (by simp), ih cs (fun x hx => h x (by simp [hx]))]

/-- Pass 3 is the identity on digit-free input. -/
theorem sub_ordinal_fuel_id (n : Nat) (l : List Char)
    (h : ∀ c ∈ l, isDigitChar c = false) : sub_ordinal_fuel n l = l := by
  induction n generalizing l with
  | zero => cases l <;> rfl
  | succ n ih =>
    cases l with
    | nil => rfl
    | cons c cs =>
      simp [sub_ordinal_fuel, h c (by simp), ih cs (fun x hx => h x (by simp [hx]))]

/-- Pass 4 is the identity on digit-free input: after a dollar sign the
pattern still demands at least one digit. -/
theorem sub_currency_fuel_id (n : Nat) (l : List Char)
    (h : ∀ c ∈ l, isDigitChar c = false) : sub_currency_fuel n l = l := by
  induction n generalizing l with
  | zero => cases l <;> rfl
  | succ n ih =>
    cases l with
    | nil => rfl
    | cons c cs =>
      have htail : sub_currency_fuel n cs = cs := ih cs (fun x hx => h x (by simp [hx]))
      by_cases hc : c = '$'
      · have htake : cs.takeWhile isDigitChar = [] := by
          cases cs with
          | nil => rfl
          | cons d ds => simp [List.takeWhile_cons, h d (by simp)]
        simp [sub_currency_fuel, hc, htake, htail]
      · simp [sub_currency_fuel, hc, htail]

/-- Pass 5 is the identity on digit-free input. -/
theorem sub_four_digit_fuel_id (n : Nat) (l : List Char)
    (h : ∀ c ∈ l, isDigitChar c = false) : sub_four_digit_fuel n l = l := by
  induction n generalizing l with
  | zero => cases l <;> rfl
  | succ n ih =>
    match l with
    | [] => rfl
    | [c] => simp [sub_four_digit_fuel, ih [] (by simp)]
    | [c, d] => simp [sub_four_digit_fuel, ih [d] (fun x hx => h x (by simp at hx ⊢; tauto))]
    | [c, d, e] => simp [sub_four_digit_fuel, ih [d, e] (fun x hx => h x (by simp at hx ⊢; tauto))]
    | c1 :: c2 :: c3 :: c4 :: rest =>
      simp [sub_four_digit_fuel, h c1 (by simp),
        ih (c2 :: c3 :: c4 :: rest) (fun x hx => h x (by simp at hx ⊢; tauto))]

/-- Pass 6 succeeds and is the identity on digit-free input. -/
theorem sub_general_fuel_id (n : Nat) (l : List Char)
    (h : ∀ c ∈ l, isDigitChar c = false) : sub_general_fuel n l = some l := by
  induction n generalizing l with
  | zero => cases l <;> rfl
  | succ n ih =>
    cases l with
    | nil => rfl
    | cons c cs =>
      simp [sub_general_fuel, h c (by simp), ih cs (fun x hx => h x (by simp [hx]))]

/-- C8: numeral expansion is idempotent on already-expanded text: when one
application of replace_numbers leaves no digit in the result, a second
application returns the same text. -/
theorem c8_idempotent (t u : String) (h : replace_numbers t true = some u)
    (hnd : hasDigit u = false) : replace_numbers u true = some u := by
  have hall : ∀ c ∈ u.toList, isDigitChar c = false := by
    intro c hc
    by_contra hcd
    have : u.toList.any isDigitChar = true :=
      List.any_eq_true.mpr ⟨c, hc, by simpa using hcd⟩
    rw [hasDigit] at hnd
    rw [this] at hnd
    simp at hnd
  simp only [replace_numbers, Bool.not_true, Bool.false_eq_true, if_false,
    sub_percent_range, sub_percent, sub_ordinal, sub_currency, sub_four_digit,
    sub_general,
    sub_percent_range_fuel_id _ _ hall, sub_percent_fuel_id _ _ hall,
    sub_ordinal_fuel_id _ _ hall, sub_currency_fuel_id _ _ hall,
    sub_four_digit_fuel_id _ _ hall, sub_general_fuel_id _ _ hall,
    Option.map_some]
  cases u with
  | mk data => rfl

/-- C8 witness: one application on a concrete percentage text yields a
digit-free result, and a second application fixes it. -/
theorem c8_witness :
    replace_numbers "I am 45% sure" true = some "I am forty-five percent sure" ∧
    hasDigit "I am forty-five percent sure" = false ∧
    replace_numbers "I am forty-five percent sure" true =
      some "I am forty-five percent sure" :=
  ⟨by decide, by decide,
    c8_idempotent "I am 45% sure" "I am forty-five percent sure"
      (by decide) (by decide)⟩

/-! ## C1: the reconciled timeline -/

/-- Interval bounds within a timeline of the given media duration. -/
abbrev withinTimeline (media_duration : ℚ) (i : Interval) : Prop :=
  0 ≤ i.start ∧ i.start ≤ i.«end» ∧ i.«end» ≤ media_duration

/-- The gap walk keeps the head element. -/
theorem fillGaps_cons (a : Interval) (t : List Interval) :
    ∃ t2, fillGaps (a :: t) = a :: t2 := by
  cases t with
  | nil => exact ⟨[], rfl⟩
  | cons b rest =>
    by_cases h : a.«end» < b.start
    · exact ⟨⟨a.«end», b.start, ""⟩ :: fillGaps (b :: rest), by simp [fillGaps, h]⟩
    · exact ⟨fillGaps (b :: rest), by simp [fillGaps, h]⟩

/-- The gap walk keeps the last element. -/
theorem fillGaps_getLast? :
    ∀ l : List Interval, (fillGaps l).getLast? = l.getLast? := by
  intro l
  induction l with
  | nil => rfl
  | cons a t ih =>
    cases t with
    | nil => rfl
    | cons b rest =>
      obtain ⟨t2, ht2⟩ := fillGaps_cons b rest
      by_cases h : a.«end» < b.start
      · simp only [fillGaps, if_pos h, ht2, List.getLast?_cons_cons]
        rw [← ht2, ih]
      · simp only [fillGaps, if_neg h, ht2, List.getLast?_cons_cons]
        rw [← ht2, ih]

/-- On a non-overlapping chain the gap walk produces an exact abutment
chain: every end equals the next start. -/
theorem fillGaps_chain' :
    ∀ l : List Interval, List.Chain' (fun a b => a.«end» ≤ b.start) l →
      List.Chain' (fun a b => a.«end» = b.start) (fillGaps l) := by
  intro l
  induction l with
  | nil => intro _; simp [fillGaps]
  | cons a t ih =>
    cases t with
    | nil => intro _; simp [fillGaps]
    | cons b rest =>
      intro h
      rw [List.chain'_cons] at h
      obtain ⟨hab, hrest⟩ := h
      obtain ⟨t2, ht2⟩ := fillGaps_cons b rest
      have ihr := ih hrest
      rw [ht2] at ihr
      by_cases hlt : a.«end» < b.start
      · simp only [fillGaps, if_pos hlt, ht2]
        exact List.chain'_cons.mpr ⟨rfl, List.chain'_cons.mpr ⟨rfl, ihr⟩⟩
      · simp only [fillGaps, if_neg hlt, ht2]
        exact List.chain'_cons.mpr ⟨le_antisymm hab (not_lt.mp hlt), ihr⟩

/-- The gap walk stays within the timeline bounds. -/
theorem fillGaps_bounds (media_duration : ℚ) :
    ∀ l : List Interval, List.Chain' (fun a b => a.«end» ≤ b.start) l →
      (∀ i ∈ l, withinTimeline media_duration i) →
      ∀ i ∈ fillGaps l, withinTimeline media_duration i := by
  intro l
  induction l with
  | nil => intro _ _ i hi; simp [fillGaps] at hi
  | cons a t ih =>
    cases t with
    | nil => intro _ hb i hi; simp [fillGaps] at hi; exact hi ▸ hb a (by simp)
    | cons b rest =>
      intro h hb
      rw [List.chain'_cons] at h
      obtain ⟨hab, hrest⟩ := h
      have hbr : ∀ i ∈ b :: rest, withinTimeline media_duration i :=
        fun i hi => hb i (by simp [hi])
      have ihr := ih hrest hbr
      have hA := hb a (by simp)
      have hB := hb b (by simp)
      by_cases hlt : a.«end» < b.start
      · simp only [fillGaps, if_pos hlt]
        intro i hi
        rcases List.mem_cons.mp hi with rfl | hi2
        · exact hA
        rcases List.mem_cons.mp hi2 with rfl | hi3
        · exact ⟨le_trans hA.1 hA.2.1, le_of_lt hlt, le_trans hB.2.1 hB.2.2⟩
        · exact ihr i hi3
      · simp only [fillGaps, if_neg hlt]
        intro i hi
        rcases List.mem_cons.mp hi with rfl | hi2
        · exact hA
        · exact ihr i hi2

/-- An exact abutment chain of well-formed intervals is ordered by start
time. -/
theorem chain'_start_of_eq :
    ∀ l : List Interval, List.Chain' (fun a b => a.«end» = b.start) l →
      (∀ i ∈ l, i.start ≤ i.«end») →
      List.Chain' (fun a b => a.start ≤ b.start) l := by
  intro l
  induction l with
  | nil => intro _ _; simp
  | cons a t ih =>
    cases t with
    | nil => intro _ _; simp
    | cons b rest =>
      intro h hb
      rw [List.chain'_cons] at h ⊢
      exact ⟨le_of_le_of_eq (hb a (by simp)) h.1,
        ih h.2 (fun i hi => hb i (by simp [hi]))⟩

/-- Membership is preserved by the stable insertion. -/
theorem mem_insertIv (x y : Interval) :
    ∀ l : List Interval, (y ∈ insertIv x l ↔ y = x ∨ y ∈ l) := by
  intro l
  induction l with
  | nil => simp [insertIv]
  | cons z zs ih =>
    by_cases h : x.start ≤ z.start
    · simp [insertIv, h]
    · simp only [insertIv, if_neg h, List.mem_cons, ih]
      tauto

/-- Membership is preserved by the sort. -/
theorem mem_sortByStart (y : Interval) :
    ∀ l : List Interval, (y ∈ sortByStart l ↔ y ∈ l) := by
  intro l
  induction l with
  | nil => simp [sortByStart]
  | cons x xs ih => simp [sortByStart, mem_insertIv, ih]

/-- The sort preserves length. -/
theorem length_sortByStart :
    ∀ l : List Interval, (sortByStart l).length = l.length := by
  have hins : ∀ (x : Interval) (l : List Interval),
      (insertIv x l).length = l.length + 1 := by
    intro x l
    induction l with
    | nil => rfl
    | cons z zs ih =>
      by_cases h : x.start ≤ z.start
      · simp [insertIv, h]
      · simp [insertIv, h, ih]
  intro l
  induction l with
  | nil => rfl
  | cons x xs ih => simp [sortByStart, hins, ih]

/-- The last element with a default lies in the list when it is nonempty. -/
theorem getLastD_mem_of_ne_nil (l : List Interval) (d : Interval) (h : l ≠ []) :
    l.getLastD d ∈ l := by
  have h1 : l.getLast? = some (l.getLast h) := List.getLast?_eq_getLast l h
  rw [List.getLastD_eq_getLast?, h1]
  exact List.getLast_mem h

/-- The per-speaker reconciliation: under the hypotheses of the claim it
succeeds and returns a gap-free timeline spanning the whole duration. -/
theorem add_silent_one_spec (media_duration : ℚ) (ivs : List Interval)
    (hne : ivs ≠ [])
    (hchain : List.Chain' (fun a b => a.«end» ≤ b.start) (sortByStart ivs))
    (hbounds : ∀ i ∈ sortByStart ivs, withinTimeline media_duration i) :
    ∃ res, add_silent_one media_duration ivs = some res ∧ res ≠ [] ∧
      List.Chain' (fun a b => a.«end» = b.start) res ∧
      (∀ i ∈ res, withinTimeline media_duration i) ∧
      (res.headD ⟨0, 0, ""⟩).start = 0 ∧
      (res.getLastD ⟨0, 0, ""⟩).«end» = media_duration := by
  obtain ⟨a, rest, hs⟩ : ∃ a rest, sortByStart ivs = a :: rest := by
    cases hsort : sortByStart ivs with
    | nil =>
      exfalso
      have hlen := length_sortByStart ivs
      rw [hsort] at hlen
      exact hne (List.length_eq_zero.mp hlen.symm)
    | cons a rest => exact ⟨a, rest, rfl⟩
  rw [hs] at hchain hbounds
  obtain ⟨t2, ht2⟩ := fillGaps_cons a rest
  have hFlast : (fillGaps (a :: rest)).getLast? = (a :: rest).getLast? :=
    fillGaps_getLast? (a :: rest)
  have hFchain := fillGaps_chain' (a :: rest) hchain
  have hFbounds := fillGaps_bounds media_duration (a :: rest) hchain hbounds
  have hA := hbounds a (by simp)
  have hlastmem : (a :: rest).getLastD a ∈ a :: rest :=
    getLastD_mem_of_ne_nil (a :: rest) a (by simp)
  set lastIv := (a :: rest).getLastD a with hlastdef
  have hL := hbounds lastIv hlastmem
  have hlast? : (a :: rest).getLast? = some lastIv := by
    rw [hlastdef, List.getLastD_eq_getLast?,
      List.getLast?_eq_getLast (a :: rest) (by simp)]
    rfl
  set front : List Interval :=
    if 0 < a.start then [⟨0, a.start, ""⟩] else [] with hfrontdef
  set back : List Interval :=
    if lastIv.«end» < media_duration then
      [⟨lastIv.«end», media_duration, ""⟩] else [] with hbackdef
  have hres : add_silent_one media_duration ivs =
      some (front ++ fillGaps (a :: rest) ++ back) := by
    simp only [add_silent_one, hs]
  refine ⟨front ++ fillGaps (a :: rest) ++ back, hres, ?_, ?_, ?_, ?_, ?_⟩
  · simp [ht2]
  · -- the exact abutment chain
    have hback_chain : List.Chain' (fun x y => x.«end» = y.start) back := by
      rw [hbackdef]
      split
      · exact List.chain'_singleton _
      · exact List.chain'_nil
    have hfront_chain : List.Chain' (fun x y => x.«end» = y.start) front := by
      rw [hfrontdef]
      split
      · exact List.chain'_singleton _
      · exact List.chain'_nil
    have hFB : List.Chain' (fun x y => x.«end» = y.start)
        (fillGaps (a :: rest) ++ back) := by
      rw [List.chain'_append]
      refine ⟨hFchain, hback_chain, ?_⟩
      intro x hx y hy
      rw [hFlast, hlast?] at hx
      rw [Option.mem_def, Option.some.injEq] at hx
      subst hx
      rw [hbackdef] at hy
      by_cases hlt : lastIv.«end» < media_duration
      · rw [if_pos hlt] at hy
        simp only [List.head?_cons, Option.mem_def, Option.some.injEq] at hy
        subst hy
        rfl
      · rw [if_neg hlt] at hy
        simp at hy
    rw [List.append_assoc, List.chain'_append]
    refine ⟨hfront_chain, hFB, ?_⟩
    intro x hx y hy
    rw [hfrontdef] at hx
    by_cases hpos : 0 < a.start
    · rw [if_pos hpos] at hx
      simp only [List.getLast?_cons, List.getLast?_nil] at hx
      rw [Option.mem_def] at hx
      have hx2 : x = (⟨0, a.start, ""⟩ : Interval) := by
        have := hx
        simp at this
        exact this.symm
      subst hx2
      rw [List.head?_append, ht2] at hy
      simp only [List.head?_cons, Option.or_some, Option.mem_def,
        Option.some.injEq] at hy
      subst hy
      rfl
    · rw [if_neg hpos] at hx
      simp at hx
  · -- bounds
    intro i hi
    rw [List.append_assoc] at hi
    rcases List.mem_append.mp hi with hif | hrest2
    · rw [hfrontdef] at hif
      by_cases hpos : 0 < a.start
      · rw [if_pos hpos] at hif
        rcases List.mem_singleton.mp hif with rfl
        exact ⟨le_refl 0, le_of_lt hpos, le_trans hA.2.1 hA.2.2⟩
      · rw [if_neg hpos] at hif
        simp at hif
    rcases List.mem_append.mp hrest2 with hiF | hib
    · exact hFbounds i hiF
    · rw [hbackdef] at hib
      by_cases hlt : lastIv.«end» < media_duration
      · rw [if_pos hlt] at hib
        rcases List.mem_singleton.mp hib with rfl
        exact ⟨le_trans hL.1 hL.2.1, le_of_lt hlt, le_refl _⟩
      · rw [if_neg hlt] at hib
        simp at hib
  · -- the head starts at 0
    rw [List.headD_eq_head?_getD, List.append_assoc, List.head?_append]
    rw [hfrontdef]
    by_cases hpos : 0 < a.start
    · rw [if_pos hpos]
      rfl
    · rw [if_neg hpos]
      rw [List.head?_append, ht2]
      simp only [List.nil_append, List.head?_nil, List.head?_cons, Option.none_or,
        Option.or_some, Option.getD_some]
      exact le_antisymm (not_lt.mp hpos) hA.1
  · -- the last ends at the media duration
    rw [List.getLastD_eq_getLast?, List.getLast?_append]
    rw [hbackdef]
    by_cases hlt : lastIv.«end» < media_duration
    · rw [if_pos hlt]
      rfl
    · rw [if_neg hlt]
      rw [List.getLast?_append, hFlast, hlast?]
      simp only [List.getLast?_nil, Option.none_or, Option.or_some, Option.getD_some]
      exact le_antisymm hL.2.2 (not_lt.mp hlt)

/-- Reconciliation of the whole map succeeds speaker by speaker: a member
speaker's reconciled list is in the output. -/
theorem add_silent_intervals_mem (m : SpeakerMap) (m2 : SpeakerMap)
    (media_duration : ℚ) (sp : String) (ivs : List Interval)
    (hrec : add_silent_intervals m media_duration = some m2)
    (hmem : (sp, ivs) ∈ m) :
    ∃ res, add_silent_one media_duration ivs = some res ∧ (sp, res) ∈ m2 := by
  induction m generalizing m2 with
  | nil => simp at hmem
  | cons p rest ih =>
    obtain ⟨psp, pivs⟩ := p
    simp only [add_silent_intervals] at hrec
    cases h1 : add_silent_one media_duration pivs with
    | none => rw [h1] at hrec; simp at hrec
    | some r =>
      rw [h1] at hrec
      cases h2 : add_silent_intervals rest media_duration with
      | none => rw [h2] at hrec; simp at hrec
      | some rs =>
        rw [h2] at hrec
        simp only [Option.some.injEq] at hrec
        subst hrec
        rcases List.mem_cons.mp hmem with heq | hmem2
        · rw [Prod.mk.injEq] at heq
          obtain ⟨rfl, rfl⟩ := heq
          exact ⟨r, h1, List.mem_cons_self _ _⟩
        · obtain ⟨res, hr1, hr2⟩ := ih rs h2 hmem2
          exact ⟨res, hr1, List.mem_cons_of_mem _ hr2⟩

/-- C1: for a speaker of the map whose sorted parsed intervals are pairwise
non-overlapping and lie within the media duration, the reconciliation
succeeds and its timeline for that speaker is ordered by start time, stays
within bounds, has every end at most the next start and in fact equal to
it, starts at 0 and ends at the media duration. -/
theorem c1_reconciled_timeline (m : SpeakerMap) (media_duration : ℚ)
    (sp : String) (ivs : List Interval) (m2 : SpeakerMap)
    (hmem : (sp, ivs) ∈ m) (hne : ivs ≠ [])
    (hpair : List.Pairwise (fun a b => a.«end» ≤ b.start) (sortByStart ivs))
    (hbounds : ∀ i ∈ sortByStart ivs, withinTimeline media_duration i)
    (hrec : add_silent_intervals m media_duration = some m2) :
    ∃ res, (sp, res) ∈ m2 ∧
      add_silent_one media_duration ivs = some res ∧ res ≠ [] ∧
      List.Chain' (fun a b => a.start ≤ b.start) res ∧
      List.Chain' (fun a b => a.«end» ≤ b.start) res ∧
      List.Chain' (fun a b => a.«end» = b.start) res ∧
      (∀ i ∈ res, withinTimeline media_duration i) ∧
      (res.headD ⟨0, 0, ""⟩).start = 0 ∧
      (res.getLastD ⟨0, 0, ""⟩).«end» = media_duration := by
  obtain ⟨res, h1, h2⟩ :=
    add_silent_intervals_mem m m2 media_duration sp ivs hrec hmem
  obtain ⟨res2, h1b, hne2, hchain, hb, hh, hl⟩ :=
    add_silent_one_spec media_duration ivs hne hpair.chain' hbounds
  rw [h1, Option.some.injEq] at h1b
  subst h1b
  exact ⟨res, h2, h1, hne2,
    chain'_start_of_eq res hchain (fun i hi => (hb i hi).2.1),
    hchain.imp (fun a b hab => le_of_eq hab), hchain, hb, hh, hl⟩

/-- C1 witness: the reconciled timeline of a single speaker with one
subtitle from 1 to 2 against a media duration of 3. -/
theorem c1_witness :
    (("A", [(⟨1, 2, "x"⟩ : Interval)]) ∈ ([("A", [⟨1, 2, "x"⟩])] : SpeakerMap)) ∧
    add_silent_intervals [("A", [⟨1, 2, "x"⟩])] 3 =
      some [("A", [⟨0, 1, ""⟩, ⟨1, 2, "x"⟩, ⟨2, 3, ""⟩])] ∧
    (∃ res, (("A", res) ∈
        ([("A", [(⟨0, 1, ""⟩ : Interval), ⟨1, 2, "x"⟩, ⟨2, 3, ""⟩])] : SpeakerMap)) ∧
      add_silent_one 3 [⟨1, 2, "x"⟩] = some res ∧ res ≠ [] ∧
      List.Chain' (fun a b => a.start ≤ b.start) res ∧
      List.Chain' (fun a b => a.«end» ≤ b.start) res ∧
      List.Chain' (fun a b => a.«end» = b.start) res ∧
      (∀ i ∈ res, withinTimeline 3 i) ∧
      (res.headD ⟨0, 0, ""⟩).start = 0 ∧
      (res.getLastD ⟨0, 0, ""⟩).«end» = 3) :=
  ⟨by decide, by decide,
    c1_reconciled_timeline [("A", [⟨1, 2, "x"⟩])] 3 "A" [⟨1, 2, "x"⟩]
      [("A", [⟨0, 1, ""⟩, ⟨1, 2, "x"⟩, ⟨2, 3, ""⟩])]
      (by decide) (by decide) (by decide) (by decide) (by decide)⟩

/-! ## C7: the media-duration filter -/

/-- C7: a block with at least three lines and a parseable timestamp is
dropped entirely by the block loop when its end time strictly exceeds the
media duration (no interval is produced, no state changes), and is kept as
the interval from its start to its end when the end time does not exceed
the media duration and the remaining stages succeed. -/
theorem c7_duration_filter (media_duration : ℚ) (diar conv : Bool)
    (ch : List ChangeRecord) (block : String) (s e : ℚ)
    (sp text pt : String) (ch2 : List ChangeRecord)
    (hlines : 3 ≤ (pySplit block "\n").length)
    (htime : parse_time_range ((pySplit block "\n").getD 1 "") = some (s, e))
    (hdiar : diarizeText diar (pyStrip ((pySplit block "\n").getD 2 "")) =
      some (sp, text))
    (hproc : process_text text ((pySplit block "\n").getD 1 "") ch conv =
      some (pt, ch2)) :
    (media_duration < e →
      processBlock media_duration diar conv ch block = .ok (none, ch)) ∧
    (e ≤ media_duration →
      processBlock media_duration diar conv ch block =
        .ok (some (sp, ⟨s, e, pt⟩), ch2)) := by
  constructor
  · intro hgt
    simp only [processBlock,
      if_neg (by omega : ¬ (pySplit block "\n").length < 3), htime, if_pos hgt]
  · intro hle
    simp only [processBlock,
      if_neg (by omega : ¬ (pySplit block "\n").length < 3), htime,
      if_neg (not_lt.mpr hle), hdiar, hproc]

/-- C7 witness: the filter statement at a concrete block from 2 to 3
against a media duration of 10, where the keep direction applies. -/
theorem c7_duration_filter_witness :
    3 ≤ (pySplit "1\n00:00:02,000 --> 00:00:03,000\nhi" "\n").length ∧
    parse_time_range
      ((pySplit "1\n00:00:02,000 --> 00:00:03,000\nhi" "\n").getD 1 "") =
      some (2, 3) ∧
    ((10 < (3 : ℚ) →
      processBlock 10 false false [] "1\n00:00:02,000 --> 00:00:03,000\nhi" =
        .ok (none, [])) ∧
    ((3 : ℚ) ≤ 10 →
      processBlock 10 false false [] "1\n00:00:02,000 --> 00:00:03,000\nhi" =
        .ok (some ("Speaker", ⟨2, 3, "hi"⟩), []))) := by
  have hl : (pySplit "1\n00:00:02,000 --> 00:00:03,000\nhi" "\n").getD 1 "" =
      "00:00:02,000 --> 00:00:03,000" := by decide
  have hr : pySplit "00:00:02,000 --> 00:00:03,000" " --> " =
      ["00:00:02,000", "00:00:03,000"] := by decide
  have h1 : time_to_seconds "00:00:02,000" = some 2 := by
    rw [time_to_seconds_eval "00:00:02,000" "00" "00" "02,000" "02" "000" 0 0 2 0
      (by decide) (by decide) (by decide) (by decide) (by decide) (by decide)]
    simp
  have h2 : time_to_seconds "00:00:03,000" = some 3 := by
    rw [time_to_seconds_eval "00:00:03,000" "00" "00" "03,000" "03" "000" 0 0 3 0
      (by decide) (by decide) (by decide) (by decide) (by decide) (by decide)]
    simp
  have htime : parse_time_range
      ((pySplit "1\n00:00:02,000 --> 00:00:03,000\nhi" "\n").getD 1 "") =
      some (2, 3) := by
    rw [hl]
    simp only [parse_time_range, hr, h1, h2]
  exact ⟨by decide, htime,
    c7_duration_filter 10 false false [] "1\n00:00:02,000 --> 00:00:03,000\nhi"
      2 3 "Speaker" "hi" "hi" [] (by decide) htime (by decide) (by decide)⟩

/-! ## C5: which malformed blocks are skipped -/

/-- A block that the loop body skips leaves both accumulators unchanged, so
it can be removed from the block list without changing the parse. -/
theorem parse_blocks_skip_middle (media_duration : ℚ) (diar conv : Bool)
    (block : String)
    (hskip : ∀ ch, processBlock media_duration diar conv ch block = .ok (none, ch)) :
    ∀ pre m ch post,
      parse_blocks media_duration diar conv (pre ++ block :: post) m ch =
        parse_blocks media_duration diar conv (pre ++ post) m ch := by
  intro pre
  induction pre with
  | nil =>
    intro m ch post
    simp only [List.nil_append, parse_blocks, hskip ch]
  | cons b pre ih =>
    intro m ch post
    simp only [List.cons_append, parse_blocks]
    cases hx : processBlock media_duration diar conv ch b with
    | error e => rfl
    | ok pr =>
      obtain ⟨o, ch2⟩ := pr
      cases o with
      | none => exact ih m ch2 post
      | some si =>
        obtain ⟨sp, iv⟩ := si
        exact ih _ ch2 post

/-- A block on which the loop body raises aborts the whole parse as soon as
the preceding blocks went through. -/
theorem parse_blocks_error_middle (media_duration : ℚ) (diar conv : Bool)
    (block : String)
    (herr : ∀ ch, processBlock media_duration diar conv ch block =
      .error "ValueError") :
    ∀ pre m ch post r,
      parse_blocks media_duration diar conv pre m ch = .ok r →
      parse_blocks media_duration diar conv (pre ++ block :: post) m ch =
        .error "ValueError" := by
  intro pre
  induction pre with
  | nil =>
    intro m ch post r _
    simp only [List.nil_append, parse_blocks, herr ch]
  | cons b pre ih =>
    intro m ch post r hok
    simp only [List.cons_append, parse_blocks] at hok ⊢
    cases hx : processBlock media_duration diar conv ch b with
    | error e => rw [hx] at hok; simp at hok
    | ok pr =>
      rw [hx] at hok
      obtain ⟨o, ch2⟩ := pr
      cases o with
      | none => exact ih m ch2 post r hok
      | some si =>
        obtain ⟨sp, iv⟩ := si
        exact ih _ ch2 post r hok

/-- A block with fewer than three lines is skipped. -/
theorem processBlock_skip_short (media_duration : ℚ) (diar conv : Bool)
    (ch : List ChangeRecord) (block : String)
    (h : (pySplit block "\n").length < 3) :
    processBlock media_duration diar conv ch block = .ok (none, ch) := by
  simp only [processBlock, if_pos h]

/-- With diarization enabled, a block whose text line does not match the
speaker pattern is skipped (given its timestamp parses and survives the
duration filter, which the control flow checks first). -/
theorem processBlock_skip_diarize (media_duration : ℚ) (conv : Bool)
    (ch : List ChangeRecord) (block : String) (s e : ℚ)
    (hlines : 3 ≤ (pySplit block "\n").length)
    (htime : parse_time_range ((pySplit block "\n").getD 1 "") = some (s, e))
    (hle : e ≤ media_duration)
    (hmatch : matchSpeaker (pyStrip ((pySplit block "\n").getD 2 "")) = none) :
    processBlock media_duration true conv ch block = .ok (none, ch) := by
  have hd : diarizeText true (pyStrip ((pySplit block "\n").getD 2 "")) = none := by
    unfold diarizeText
    rw [if_pos rfl]
    exact hmatch
  simp only [processBlock,
    if_neg (by omega : ¬ (pySplit block "\n").length < 3), htime,
    if_neg (not_lt.mpr hle), hd]

/-- A block whose timestamp line does not parse raises ValueError. -/
theorem processBlock_error_time (media_duration : ℚ) (diar conv : Bool)
    (ch : List ChangeRecord) (block : String)
    (hlines : 3 ≤ (pySplit block "\n").length)
    (htime : parse_time_range ((pySplit block "\n").getD 1 "") = none) :
    processBlock media_duration diar conv ch block = .error "ValueError" := by
  simp only [processBlock,
    if_neg (by omega : ¬ (pySplit block "\n").length < 3), htime]

/-- C5 counterexample: a block whose second line is not a parseable
timestamp range does not get skipped: the parse aborts with ValueError,
and the well-formed block after it is never processed. -/
theorem c5_counterexample :
    parse_srt "1\nbadtime\nhello\n\n2\n00:00:00,000 --> 00:00:01,000\nworld"
      10 false false = .error "ValueError" := by
  have hb : splitBlocks
      (pyStrip "1\nbadtime\nhello\n\n2\n00:00:00,000 --> 00:00:01,000\nworld") =
      ["1\nbadtime\nhello", "2\n00:00:00,000 --> 00:00:01,000\nworld"] := by decide
  have h1 : processBlock 10 false false [] "1\nbadtime\nhello" =
      .error "ValueError" :=
    processBlock_error_time 10 false false [] "1\nbadtime\nhello"
      (by decide) (by decide)
  have hpb : parse_blocks 10 false false
      ["1\nbadtime\nhello", "2\n00:00:00,000 --> 00:00:01,000\nworld"] [] [] =
      .error "ValueError" := by
    simp only [parse_blocks, h1]
  unfold parse_srt
  rw [hb, hpb]

/-- C5 amended: a block with fewer than three lines is silently skipped, as
is, when diarization is enabled, a block whose text line does not match
the speaker pattern (once its timestamp parsed within the duration); but a
block whose second line is not a parseable timestamp range raises
ValueError and aborts the parse instead of being skipped. -/
theorem c5_malformed_amended (media_duration : ℚ) (diar conv : Bool) :
    (∀ pre post m ch block, (pySplit block "\n").length < 3 →
      parse_blocks media_duration diar conv (pre ++ block :: post) m ch =
        parse_blocks media_duration diar conv (pre ++ post) m ch) ∧
    (∀ pre post m ch block s e, 3 ≤ (pySplit block "\n").length →
      parse_time_range ((pySplit block "\n").getD 1 "") = some (s, e) →
      e ≤ media_duration →
      matchSpeaker (pyStrip ((pySplit block "\n").getD 2 "")) = none →
      parse_blocks media_duration true conv (pre ++ block :: post) m ch =
        parse_blocks media_duration true conv (pre ++ post) m ch) ∧
    (∀ pre post m ch block r, 3 ≤ (pySplit block "\n").length →
      parse_time_range ((pySplit block "\n").getD 1 "") = none →
      parse_blocks media_duration diar conv pre m ch = .ok r →
      parse_blocks media_duration diar conv (pre ++ block :: post) m ch =
        .error "ValueError") := by
  refine ⟨?_, ?_, ?_⟩
  · intro pre post m ch block hlen
    exact parse_blocks_skip_middle media_duration diar conv block
      (fun ch0 => processBlock_skip_short media_duration diar conv ch0 block hlen)
      pre m ch post
  · intro pre post m ch block s e hlen htime hle hmatch
    exact parse_blocks_skip_middle media_duration true conv block
      (fun ch0 => processBlock_skip_diarize media_duration conv ch0 block s e
        hlen htime hle hmatch)
      pre m ch post
  · intro pre post m ch block r hlen htime hok
    exact parse_blocks_error_middle media_duration diar conv block
      (fun ch0 => processBlock_error_time media_duration diar conv ch0 block
        hlen htime)
      pre m ch post r hok

/-- C5 witness: the three amended statements applied to concrete blocks: a
two-line block is removable, a diarization mismatch is removable, and a bad
timestamp block aborts the parse. -/
theorem c5_malformed_witness :
    (parse_blocks 10 false false ["1\nx"] [] [] =
      parse_blocks 10 false false [] [] []) ∧
    (parse_blocks 10 true false ["1\n00:00:02,000 --> 00:00:03,000\nno tag"] [] [] =
      parse_blocks 10 true false [] [] []) ∧
    (parse_blocks 10 false false ["1\nbadtime\nhello"] [] [] =
      .error "ValueError") := by
  have hl : (pySplit "1\n00:00:02,000 --> 00:00:03,000\nno tag" "\n").getD 1 "" =
      "00:00:02,000 --> 00:00:03,000" := by decide
  have hr : pySplit "00:00:02,000 --> 00:00:03,000" " --> " =
      ["00:00:02,000", "00:00:03,000"] := by decide
  have h1 : time_to_seconds "00:00:02,000" = some 2 := by
    rw [time_to_seconds_eval "00:00:02,000" "00" "00" "02,000" "02" "000" 0 0 2 0
      (by decide) (by decide) (by decide) (by decide) (by decide) (by decide)]
    simp
  have h2 : time_to_seconds "00:00:03,000" = some 3 := by
    rw [time_to_seconds_eval "00:00:03,000" "00" "00" "03,000" "03" "000" 0 0 3 0
      (by decide) (by decide) (by decide) (by decide) (by decide) (by decide)]
    simp
  have htime : parse_time_range
      ((pySplit "1\n00:00:02,000 --> 00:00:03,000\nno tag" "\n").getD 1 "") =
      some (2, 3) := by
    rw [hl]
    simp only [parse_time_range, hr, h1, h2]
  refine ⟨?_, ?_, ?_⟩
  · exact (c5_malformed_amended 10 false false).1 [] [] [] [] "1\nx" (by decide)
  · exact (c5_malformed_amended 10 false false).2.1 [] [] [] []
      "1\n00:00:02,000 --> 00:00:03,000\nno tag" 2 3 (by decide) htime
      (by decide) (by decide)
  · exact (c5_malformed_amended 10 false false).2.2 [] [] [] []
      "1\nbadtime\nhello" ([], []) (by decide) (by decide) rfl

/-! ## C6: the interval invariant -/

/-- A well-formed interval: nonnegative start at most its end. -/
abbrev wellFormed (i : Interval) : Prop := 0 ≤ i.start ∧ i.start ≤ i.«end»

/-- Inversion of the block loop body: a kept subtitle carries the parsed
times of its timestamp line, and survived the duration filter. -/
theorem processBlock_some_inv (media_duration : ℚ) (diar conv : Bool)
    (ch : List ChangeRecord) (block : String) (sp : String) (iv : Interval)
    (ch2 : List ChangeRecord)
    (h : processBlock media_duration diar conv ch block = .ok (some (sp, iv), ch2)) :
    ∃ s e, parse_time_range ((pySplit block "\n").getD 1 "") = some (s, e) ∧
      iv.start = s ∧ iv.«end» = e ∧ e ≤ media_duration := by
  simp only [processBlock] at h
  split at h
  · simp at h
  · split at h
    · simp at h
    · rename_i s e heq
      split at h
      · simp at h
      · rename_i hgt
        split at h
        · simp at h
        · rename_i sp2 text hdz
          split at h
          · simp at h
          · rename_i pt ch3 hpr
            simp only [Except.ok.injEq, Prod.mk.injEq, Option.some.injEq] at h
            obtain ⟨⟨hsp, hiv⟩, hch⟩ := h
            exact ⟨s, e, heq, by rw [← hiv], by rw [← hiv], not_lt.mp hgt⟩

/-- A property of intervals transported through addToSpeaker. -/
theorem addToSpeaker_forall (P : Interval → Prop) (sp : String) (iv : Interval)
    (hiv : P iv) :
    ∀ m : SpeakerMap, (∀ p ∈ m, ∀ i ∈ p.2, P i) →
      ∀ p ∈ addToSpeaker m sp iv, ∀ i ∈ p.2, P i := by
  intro m
  induction m with
  | nil =>
    intro _ p hp i hi
    simp only [addToSpeaker, List.mem_singleton] at hp
    subst hp
    simp only [List.mem_singleton] at hi
    subst hi
    exact hiv
  | cons q rest ih =>
    obtain ⟨qsp, ql⟩ := q
    intro hm p hp i hi
    simp only [addToSpeaker] at hp
    by_cases hq : qsp = sp
    · rw [if_pos hq] at hp
      rcases List.mem_cons.mp hp with rfl | hp2
      · rcases List.mem_append.mp hi with hi1 | hi2
        · exact hm (qsp, ql) (by simp) i hi1
        · rw [List.mem_singleton] at hi2
          subst hi2
          exact hiv
      · exact hm p (List.mem_cons_of_mem _ hp2) i hi
    · rw [if_neg hq] at hp
      rcases List.mem_cons.mp hp with rfl | hp2
      · exact hm (qsp, ql) (by simp) i hi
      · exact ih (fun r hr => hm r (List.mem_cons_of_mem _ hr)) p hp2 i hi

/-- The block loop only ever appends intervals whose timestamps it parsed,
so when every block's timestamp is well ordered, every parsed interval is
well formed. -/
theorem parse_blocks_wellFormed (media_duration : ℚ) (diar conv : Bool) :
    ∀ (blocks : List String) (m : SpeakerMap) (ch : List ChangeRecord)
      (m2 : SpeakerMap) (ch2 : List ChangeRecord),
      (∀ b ∈ blocks, timeOrderOK b = true) →
      (∀ p ∈ m, ∀ i ∈ p.2, wellFormed i) →
      parse_blocks media_duration diar conv blocks m ch = .ok (m2, ch2) →
      ∀ p ∈ m2, ∀ i ∈ p.2, wellFormed i := by
  intro blocks
  induction blocks with
  | nil =>
    intro m ch m2 ch2 _ hm hok
    simp only [parse_blocks, Except.ok.injEq, Prod.mk.injEq] at hok
    obtain ⟨rfl, rfl⟩ := hok
    exact hm
  | cons b bs ih =>
    intro m ch m2 ch2 hts hm hok
    simp only [parse_blocks] at hok
    cases hx : processBlock media_duration diar conv ch b with
    | error e => rw [hx] at hok; simp at hok
    | ok pr =>
      rw [hx] at hok
      obtain ⟨o, ch3⟩ := pr
      cases o with
      | none =>
        exact ih m ch3 m2 ch2 (fun b2 hb2 => hts b2 (by simp [hb2])) hm hok
      | some si =>
        obtain ⟨sp, iv⟩ := si
        have hwf : wellFormed iv := by
          obtain ⟨s, e, heq, hst, hen, _⟩ :=
            processBlock_some_inv media_duration diar conv ch b sp iv ch3 hx
          have htb := hts b (by simp)
          rw [timeOrderOK, heq] at htb
          simp only [Bool.and_eq_true, decide_eq_true_eq] at htb
          exact ⟨by rw [hst]; exact htb.1, by rw [hst, hen]; exact htb.2⟩
        exact ih (addToSpeaker m sp iv) ch3 m2 ch2
          (fun b2 hb2 => hts b2 (by simp [hb2]))
          (addToSpeaker_forall wellFormed sp iv hwf m hm) hok

/-- The gap walk preserves well-formedness: an inserted silent interval
runs from the previous end to the strictly larger next start. -/
theorem fillGaps_wellFormed :
    ∀ l : List Interval, (∀ i ∈ l, wellFormed i) →
      ∀ i ∈ fillGaps l, wellFormed i := by
  intro l
  induction l with
  | nil => intro _ i hi; simp [fillGaps] at hi
  | cons a t ih =>
    cases t with
    | nil =>
      intro hm i hi
      simp only [fillGaps, List.mem_singleton] at hi
      subst hi
      exact hm _ (by simp)
    | cons b rest =>
      intro hm i hi
      have hA := hm a (by simp)
      have hB := hm b (by simp)
      have ihr := ih (fun x hx => hm x (by simp [hx]))
      by_cases hlt : a.«end» < b.start
      · rw [fillGaps, if_pos hlt] at hi
        rcases List.mem_cons.mp hi with rfl | hi2
        · exact hA
        rcases List.mem_cons.mp hi2 with rfl | hi3
        · exact ⟨le_trans hA.1 hA.2, le_of_lt hlt⟩
        · exact ihr i hi3
      · rw [fillGaps, if_neg hlt] at hi
        rcases List.mem_cons.mp hi with rfl | hi2
        · exact hA
        · exact ihr i hi2

/-- The per-speaker reconciliation preserves well-formedness. -/
theorem add_silent_one_wellFormed (media_duration : ℚ) (l : List Interval)
    (r : List Interval) (hsome : add_silent_one media_duration l = some r)
    (hm : ∀ i ∈ l, wellFormed i) : ∀ i ∈ r, wellFormed i := by
  have hms : ∀ i ∈ sortByStart l, wellFormed i :=
    fun i hi => hm i ((mem_sortByStart i l).mp hi)
  cases hs : sortByStart l with
  | nil => rw [add_silent_one, hs] at hsome; simp at hsome
  | cons a rest =>
    rw [add_silent_one, hs] at hsome
    simp only [Option.some.injEq] at hsome
    subst hsome
    rw [hs] at hms
    have hA := hms a (by simp)
    have hlastmem : (a :: rest).getLastD a ∈ a :: rest :=
      getLastD_mem_of_ne_nil (a :: rest) a (by simp)
    have hL := hms _ hlastmem
    intro i hi
    rw [List.append_assoc] at hi
    rcases List.mem_append.mp hi with hif | hrest2
    · by_cases hpos : 0 < a.start
      · rw [if_pos hpos] at hif
        rcases List.mem_singleton.mp hif with rfl
        exact ⟨le_refl 0, le_of_lt hpos⟩
      · rw [if_neg hpos] at hif
        simp at hif
    rcases List.mem_append.mp hrest2 with hiF | hib
    · exact fillGaps_wellFormed (a :: rest) hms i hiF
    · by_cases hlt : ((a :: rest).getLastD a).«end» < media_duration
      · rw [if_pos hlt] at hib
        rcases List.mem_singleton.mp hib with rfl
        exact ⟨le_trans hL.1 hL.2, le_of_lt hlt⟩
      · rw [if_neg hlt] at hib
        simp at hib

/-- Reconciliation of the whole map preserves well-formedness. -/
theorem add_silent_intervals_wellFormed (media_duration : ℚ) :
    ∀ (m m2 : SpeakerMap),
      add_silent_intervals m media_duration = some m2 →
      (∀ p ∈ m, ∀ i ∈ p.2, wellFormed i) →
      ∀ p ∈ m2, ∀ i ∈ p.2, wellFormed i := by
  intro m
  induction m with
  | nil =>
    intro m2 hrec _
    simp only [add_silent_intervals, Option.some.injEq] at hrec
    subst hrec
    simp
  | cons q rest ih =>
    obtain ⟨qsp, ql⟩ := q
    intro m2 hrec hm
    simp only [add_silent_intervals] at hrec
    cases h1 : add_silent_one media_duration ql with
    | none => rw [h1] at hrec; simp at hrec
    | some r =>
      rw [h1] at hrec
      cases h2 : add_silent_intervals rest media_duration with
      | none => rw [h2] at hrec; simp at hrec
      | some rs =>
        rw [h2] at hrec
        simp only [Option.some.injEq] at hrec
        subst hrec
        intro p hp i hi
        rcases List.mem_cons.mp hp with rfl | hp2
        · exact add_silent_one_wellFormed media_duration ql r h1
            (fun j hj => hm (qsp, ql) (by simp) j hj) i hi
        · exact ih rs h2 (fun q2 hq2 => hm q2 (List.mem_cons_of_mem _ hq2)) p hp2 i hi

/-- C6 counterexample: an SRT block whose timestamp range is reversed
produces an interval with start 5 and end 1, so the program constructs an
Interval violating the claimed invariant, and even returns it in its
output timeline. -/
theorem c6_counterexample :
    parse_srt "1\n00:00:05,000 --> 00:00:01,000\nhi" 10 false false =
      .ok ([("Speaker", [⟨0, 5, ""⟩, ⟨5, 1, "hi"⟩, ⟨1, 10, ""⟩])], []) ∧
    ¬ ((Interval.mk 5 1 "hi").start ≤ (Interval.mk 5 1 "hi").«end») := by
  constructor
  · have hb : splitBlocks (pyStrip "1\n00:00:05,000 --> 00:00:01,000\nhi") =
        ["1\n00:00:05,000 --> 00:00:01,000\nhi"] := by decide
    have hl : pySplit "1\n00:00:05,000 --> 00:00:01,000\nhi" "\n" =
        ["1", "00:00:05,000 --> 00:00:01,000", "hi"] := by decide
    have hr : pySplit "00:00:05,000 --> 00:00:01,000" " --> " =
        ["00:00:05,000", "00:00:01,000"] := by decide
    have ht1 : time_to_seconds "00:00:05,000" = some 5 := by
      rw [time_to_seconds_eval "00:00:05,000" "00" "00" "05,000" "05" "000" 0 0 5 0
        (by decide) (by decide) (by decide) (by decide) (by decide) (by decide)]
      simp
    have ht2 : time_to_seconds "00:00:01,000" = some 1 := by
      rw [time_to_seconds_eval "00:00:01,000" "00" "00" "01,000" "01" "000" 0 0 1 0
        (by decide) (by decide) (by decide) (by decide) (by decide) (by decide)]
      simp
    have hpt : parse_time_range "00:00:05,000 --> 00:00:01,000" = some (5, 1) := by
      simp only [parse_time_range, hr, ht1, ht2]
    have hproc : process_text "hi" "00:00:05,000 --> 00:00:01,000" [] false =
        some ("hi", []) := by decide
    have hstrip : pyStrip "hi" = "hi" := by decide
    have hblk : processBlock 10 false false []
        "1\n00:00:05,000 --> 00:00:01,000\nhi" =
        .ok (some ("Speaker", ⟨5, 1, "hi"⟩), []) := by
      simp only [processBlock, hl, List.getD_cons_zero, List.getD_cons_succ,
        List.length_cons, List.length_nil, hpt, diarizeText, hstrip, hproc]
      norm_num [hproc]
    have hsil : add_silent_intervals [("Speaker", [(⟨5, 1, "hi"⟩ : Interval)])] 10 =
        some [("Speaker", [⟨0, 5, ""⟩, ⟨5, 1, "hi"⟩, ⟨1, 10, ""⟩])] := by
      simp only [add_silent_intervals, add_silent_one, sortByStart, insertIv,
        fillGaps, List.getLastD]
      norm_num
    have hpb : parse_blocks 10 false false
        ["1\n00:00:05,000 --> 00:00:01,000\nhi"] [] [] =
        .ok ([("Speaker", [⟨5, 1, "hi"⟩])], []) := by
      simp only [parse_blocks, hblk, addToSpeaker]
    unfold parse_srt
    rw [hb, hpb]
    simp only [hsil]
  · decide

/-- C6 amended: the code never checks the invariant, and a reversed
timestamp produces an interval with start above end; but for every SRT
input whose parseable timestamps are nonnegative and well ordered, every
interval of the final timelines (parsed and synthesized silences alike)
satisfies 0 at most start at most end. -/
theorem c6_invariant_amended (raw : String) (media_duration : ℚ)
    (diar conv : Bool) (m2 : SpeakerMap) (ch : List ChangeRecord)
    (hts : ∀ block ∈ splitBlocks (pyStrip raw), timeOrderOK block = true)
    (hok : parse_srt raw media_duration diar conv = .ok (m2, ch)) :
    ∀ p ∈ m2, ∀ i ∈ p.2, 0 ≤ i.start ∧ i.start ≤ i.«end» := by
  unfold parse_srt at hok
  split at hok
  · exact absurd hok (by simp)
  · rename_i m1 ch1 hpb
    split at hok
    · exact absurd hok (by simp)
    · rename_i mrec hsil
      rw [Except.ok.injEq, Prod.mk.injEq] at hok
      obtain ⟨rfl, rfl⟩ := hok
      have h1 := parse_blocks_wellFormed media_duration diar conv
        (splitBlocks (pyStrip raw)) [] [] m1 ch1 hts (by simp) hpb
      exact add_silent_intervals_wellFormed media_duration m1 mrec hsil h1

/-- C6 witness: the amended invariant on a concrete well-ordered input. -/
theorem c6_invariant_witness :
    (∀ block ∈ splitBlocks (pyStrip "1\n00:00:01,000 --> 00:00:02,000\nhi"),
      timeOrderOK block = true) ∧
    (∀ p ∈ ([("Speaker", [⟨0, 1, ""⟩, ⟨1, 2, "hi"⟩, ⟨2, 3, ""⟩])] : SpeakerMap),
      ∀ i ∈ p.2, 0 ≤ i.start ∧ i.start ≤ i.«end») := by
  have hb : splitBlocks (pyStrip "1\n00:00:01,000 --> 00:00:02,000\nhi") =
      ["1\n00:00:01,000 --> 00:00:02,000\nhi"] := by decide
  have hl : pySplit "1\n00:00:01,000 --> 00:00:02,000\nhi" "\n" =
      ["1", "00:00:01,000 --> 00:00:02,000", "hi"] := by decide
  have hr : pySplit "00:00:01,000 --> 00:00:02,000" " --> " =
      ["00:00:01,000", "00:00:02,000"] := by decide
  have ht1 : time_to_seconds "00:00:01,000" = some 1 := by
    rw [time_to_seconds_eval "00:00:01,000" "00" "00" "01,000" "01" "000" 0 0 1 0
      (by decide) (by decide) (by decide) (by decide) (by decide) (by decide)]
    simp
  have ht2 : time_to_seconds "00:00:02,000" = some 2 := by
    rw [time_to_seconds_eval "00:00:02,000" "00" "00" "02,000" "02" "000" 0 0 2 0
      (by decide) (by decide) (by decide) (by decide) (by decide) (by decide)]
    simp
  have hpt : parse_time_range "00:00:01,000 --> 00:00:02,000" = some (1, 2) := by
    simp only [parse_time_range, hr, ht1, ht2]
  have hts : ∀ block ∈ splitBlocks (pyStrip "1\n00:00:01,000 --> 00:00:02,000\nhi"),
      timeOrderOK block = true := by
    rw [hb]
    intro block hbm
    rw [List.mem_singleton] at hbm
    subst hbm
    rw [timeOrderOK, hl]
    simp only [List.getD_cons_zero, List.getD_cons_succ, hpt]
    decide
  have hproc : process_text "hi" "00:00:01,000 --> 00:00:02,000" [] false =
      some ("hi", []) := by decide
  have hstrip : pyStrip "hi" = "hi" := by decide
  have hblk : processBlock 3 false false []
      "1\n00:00:01,000 --> 00:00:02,000\nhi" =
      .ok (some ("Speaker", ⟨1, 2, "hi"⟩), []) := by
    simp only [processBlock, hl, List.getD_cons_zero, List.getD_cons_succ,
      List.length_cons, List.length_nil, hpt, diarizeText, hstrip, hproc]
    norm_num [hproc]
  have hsil : add_silent_intervals [("Speaker", [(⟨1, 2, "hi"⟩ : Interval)])] 3 =
      some [("Speaker", [⟨0, 1, ""⟩, ⟨1, 2, "hi"⟩, ⟨2, 3, ""⟩])] := by
    simp only [add_silent_intervals, add_silent_one, sortByStart, insertIv,
      fillGaps, List.getLastD]
    norm_num
  have hpb : parse_blocks 3 false false
      ["1\n00:00:01,000 --> 00:00:02,000\nhi"] [] [] =
      .ok ([("Speaker", [⟨1, 2, "hi"⟩])], []) := by
    simp only [parse_blocks, hblk, addToSpeaker]
  have hok : parse_srt "1\n00:00:01,000 --> 00:00:02,000\nhi" 3 false false =
      .ok ([("Speaker", [⟨0, 1, ""⟩, ⟨1, 2, "hi"⟩, ⟨2, 3, ""⟩])], []) := by
    unfold parse_srt
    rw [hb, hpb]
    simp only [hsil]
  exact ⟨hts, c6_invariant_amended "1\n00:00:01,000 --> 00:00:02,000\nhi" 3
    false false _ [] hts hok⟩

/-! ## C10: speaker keys always own a nonempty list -/

/-- addToSpeaker never leaves an empty list behind a key: existing lists
only grow and a fresh key starts with one interval. -/
theorem addToSpeaker_ne_nil (sp : String) (iv : Interval) :
    ∀ m : SpeakerMap, (∀ p ∈ m, p.2 ≠ []) →
      ∀ p ∈ addToSpeaker m sp iv, p.2 ≠ [] := by
  intro m
  induction m with
  | nil =>
    intro _ p hp
    simp only [addToSpeaker, List.mem_singleton] at hp
    subst hp
    simp
  | cons q rest ih =>
    obtain ⟨qsp, ql⟩ := q
    intro hm p hp
    simp only [addToSpeaker] at hp
    by_cases hq : qsp = sp
    · rw [if_pos hq] at hp
      rcases List.mem_cons.mp hp with rfl | hp2
      · simp
      · exact hm p (List.mem_cons_of_mem _ hp2)
    · rw [if_neg hq] at hp
      rcases List.mem_cons.mp hp with rfl | hp2
      · exact hm (qsp, ql) (by simp)
      · exact ih (fun r hr => hm r (List.mem_cons_of_mem _ hr)) p hp2

/-- Every speaker key produced by the block loop owns a nonempty interval
list: a key is only ever created by appending an interval. -/
theorem parse_blocks_ne_nil (media_duration : ℚ) (diar conv : Bool) :
    ∀ (blocks : List String) (m : SpeakerMap) (ch : List ChangeRecord)
      (m2 : SpeakerMap) (ch2 : List ChangeRecord),
      (∀ p ∈ m, p.2 ≠ []) →
      parse_blocks media_duration diar conv blocks m ch = .ok (m2, ch2) →
      ∀ p ∈ m2, p.2 ≠ [] := by
  intro blocks
  induction blocks with
  | nil =>
    intro m ch m2 ch2 hm hok
    simp only [parse_blocks, Except.ok.injEq, Prod.mk.injEq] at hok
    obtain ⟨rfl, rfl⟩ := hok
    exact hm
  | cons b bs ih =>
    intro m ch m2 ch2 hm hok
    simp only [parse_blocks] at hok
    cases hx : processBlock media_duration diar conv ch b with
    | error e => rw [hx] at hok; simp at hok
    | ok pr =>
      rw [hx] at hok
      obtain ⟨o, ch3⟩ := pr
      cases o with
      | none => exact ih m ch3 m2 ch2 hm hok
      | some si =>
        obtain ⟨sp, iv⟩ := si
        exact ih (addToSpeaker m sp iv) ch3 m2 ch2
          (addToSpeaker_ne_nil sp iv m hm) hok

/-- The sort of a nonempty list is nonempty. -/
theorem sortByStart_ne_nil (l : List Interval) (h : l ≠ []) :
    sortByStart l ≠ [] := by
  intro hc
  have := length_sortByStart l
  rw [hc] at this
  exact h (List.length_eq_zero.mp this.symm)

/-- The per-speaker reconciliation succeeds on a nonempty list. -/
theorem add_silent_one_isSome (media_duration : ℚ) (l : List Interval)
    (h : l ≠ []) : ∃ r, add_silent_one media_duration l = some r := by
  cases hs : sortByStart l with
  | nil => exact absurd hs (sortByStart_ne_nil l h)
  | cons a rest => exact ⟨_, by rw [add_silent_one, hs]⟩

/-- The map reconciliation succeeds when every speaker list is nonempty. -/
theorem add_silent_intervals_isSome (media_duration : ℚ) :
    ∀ m : SpeakerMap, (∀ p ∈ m, p.2 ≠ []) →
      ∃ m2, add_silent_intervals m media_duration = some m2 := by
  intro m
  induction m with
  | nil => exact fun _ => ⟨[], rfl⟩
  | cons q rest ih =>
    obtain ⟨qsp, ql⟩ := q
    intro hm
    obtain ⟨r, hr⟩ := add_silent_one_isSome media_duration ql
      (hm (qsp, ql) (by simp))
    obtain ⟨rs, hrs⟩ := ih (fun p hp => hm p (List.mem_cons_of_mem _ hp))
    exact ⟨(qsp, r) :: rs, by rw [add_silent_intervals, hr, hrs]⟩

/-- C10: for every SRT input, every speaker key of the map handed to
add_silent_intervals owns a nonempty list, so the first-element and
last-element accesses of the reconciliation never see an empty sequence
and parse_srt completes without the IndexError hazard. -/
theorem c10_nonempty_speakers (raw : String) (media_duration : ℚ)
    (diar conv : Bool) (m : SpeakerMap) (ch : List ChangeRecord)
    (h : parse_blocks media_duration diar conv (splitBlocks (pyStrip raw)) [] [] =
      .ok (m, ch)) :
    (∀ p ∈ m, p.2 ≠ []) ∧
    add_silent_intervals m media_duration ≠ none ∧
    ∃ m2, parse_srt raw media_duration diar conv = .ok (m2, ch) := by
  have hne : ∀ p ∈ m, p.2 ≠ [] :=
    parse_blocks_ne_nil media_duration diar conv (splitBlocks (pyStrip raw))
      [] [] m ch (by simp) h
  obtain ⟨m2, hm2⟩ := add_silent_intervals_isSome media_duration m hne
  refine ⟨hne, by rw [hm2]; simp, m2, ?_⟩
  unfold parse_srt
  rw [h]
  show (match add_silent_intervals m media_duration with
    | none => Except.error "IndexError"
    | some m3 => Except.ok (m3, ch)) = Except.ok (m2, ch)
  rw [hm2]

/-- C10 witness: the statement at a concrete one-subtitle input. -/
theorem c10_nonempty_witness :
    parse_blocks 1 false false
      (splitBlocks (pyStrip "1\n00:00:00,000 --> 00:00:01,000\nhi")) [] [] =
      .ok ([("Speaker", [⟨0, 1, "hi"⟩])], []) ∧
    ((∀ p ∈ ([("Speaker", [⟨0, 1, "hi"⟩])] : SpeakerMap), p.2 ≠ []) ∧
    add_silent_intervals [("Speaker", [⟨0, 1, "hi"⟩])] 1 ≠ none ∧
    ∃ m2, parse_srt "1\n00:00:00,000 --> 00:00:01,000\nhi" 1 false false =
      .ok (m2, [])) := by
  have hb : splitBlocks (pyStrip "1\n00:00:00,000 --> 00:00:01,000\nhi") =
      ["1\n00:00:00,000 --> 00:00:01,000\nhi"] := by decide
  have hl : pySplit "1\n00:00:00,000 --> 00:00:01,000\nhi" "\n" =
      ["1", "00:00:00,000 --> 00:00:01,000", "hi"] := by decide
  have hr : pySplit "00:00:00,000 --> 00:00:01,000" " --> " =
      ["00:00:00,000", "00:00:01,000"] := by decide
  have ht1 : time_to_seconds "00:00:00,000" = some 0 := by
    rw [time_to_seconds_eval "00:00:00,000" "00" "00" "00,000" "00" "000" 0 0 0 0
      (by decide) (by decide) (by decide) (by decide) (by decide) (by decide)]
    simp
  have ht2 : time_to_seconds "00:00:01,000" = some 1 := by
    rw [time_to_seconds_eval "00:00:01,000" "00" "00" "01,000" "01" "000" 0 0 1 0
      (by decide) (by decide) (by decide) (by decide) (by decide) (by decide)]
    simp
  have hpt : parse_time_range "00:00:00,000 --> 00:00:01,000" = some (0, 1) := by
    simp only [parse_time_range, hr, ht1, ht2]
  have hproc : process_text "hi" "00:00:00,000 --> 00:00:01,000" [] false =
      some ("hi", []) := by decide
  have hstrip : pyStrip "hi" = "hi" := by decide
  have hblk : processBlock 1 false false []
      "1\n00:00:00,000 --> 00:00:01,000\nhi" =
      .ok (some ("Speaker", ⟨0, 1, "hi"⟩), []) := by
    simp only [processBlock, hl, List.getD_cons_zero, List.getD_cons_succ,
      List.length_cons, List.length_nil, hpt, diarizeText, hstrip, hproc]
    norm_num [hproc]
  have hpb : parse_blocks 1 false false
      (splitBlocks (pyStrip "1\n00:00:00,000 --> 00:00:01,000\nhi")) [] [] =
      .ok ([("Speaker", [⟨0, 1, "hi"⟩])], []) := by
    rw [hb]
    simp only [parse_blocks, hblk, addToSpeaker]
  exact ⟨hpb, c10_nonempty_speakers "1\n00:00:00,000 --> 00:00:01,000\nhi" 1
    false false [("Speaker", [⟨0, 1, "hi"⟩])] [] hpb⟩

end SrtToPraat
